import Mathlib

/-!
# A minimal experiment-tracking store, modelled from the specification

The repository is a notebook that drives MLflow's tracking component
(`mlflow.start_run`, `mlflow.log_param`, `mlflow.log_metric`,
`MlflowClient.get_run`) in a sequential loop over model configurations.
The tracking store itself is library code that is not part of the sources;
only its call sites appear in the notebook.  Following the specification's
§3–§7 ("minimal experiment tracking store": Run Store, Run Context, Query
Client), we model the store, its run lifecycle and its logging operations
here, and verify the stated properties against this model.  The notebook's
own loop structure (one `start_run` context per model, logging params from
`cv_results_`, metrics, then querying `get_run` inside the open context) is
embedded as `Store.withRun` / `Store.workflow`.
-/

namespace MLTrack

/-- Modelled from the spec: run status, one of RUNNING, FINISHED, FAILED
(§3 Data Model; the tracking library's run states are not in the sources). -/
inductive RunStatus where
  | RUNNING
  | FINISHED
  | FAILED
deriving DecidableEq, Repr

/-- A status is terminal iff it is FINISHED or FAILED. -/
def RunStatus.isTerminal : RunStatus → Bool
  | .RUNNING => false
  | .FINISHED => true
  | .FAILED => true

/-- Modelled from the spec: the error taxonomy of §7 (NotFoundError,
InvalidStateError, ConflictError), plus `UserError` for an arbitrary error
raised by user code inside a run's body (e.g. an sklearn failure), carrying
an opaque code so that "the original error re-propagates unchanged" is a
meaningful statement. -/
inductive TrackingError where
  | NotFoundError
  | InvalidStateError
  | ConflictError
  | UserError (code : Nat)
deriving DecidableEq, Repr

/-- Modelled from the spec / notebook call sites: a parameter value passed to
`log_param`.  The notebook passes strings and numeric arrays taken from
`cv_results_`; the store coerces every value to its string representation. -/
inductive PValue where
  | str (s : String)
  | num (n : Int)
  | numList (l : List Int)
deriving DecidableEq, Repr

/-- String coercion applied by `log_param` to a non-string value; numeric
arrays print in the bracketed space-separated form seen in the notebook's
output (e.g. `[0 1]`). -/
def PValue.render : PValue → String
  | .str s => s
  | .num n => toString n
  | .numList l => "[" ++ String.intercalate " " (l.map toString) ++ "]"

/-- One entry of a metric time series: (value, step, timestamp) (§3). -/
structure MetricEntry where
  value : Int
  step : Nat
  timestamp : Nat
deriving DecidableEq, Repr

/-- Modelled from the spec: a single run record (§3 Data Model).  `params`,
`artifacts` and `tags` are association lists in insertion order; `metrics`
maps each key to its time series in insertion order. -/
structure Run where
  runId : Nat
  status : RunStatus
  startTime : Nat
  endTime : Option Nat
  params : List (String × String)
  metrics : List (String × List MetricEntry)
  artifacts : List (String × Nat)
  tags : List (String × String)
deriving DecidableEq, Repr

/-- Modelled from the spec: the Run Store (§4.1): run records keyed by
`run_id`, an identity counter, and a logical clock for timestamps. -/
structure Store where
  nextId : Nat
  clock : Nat
  runs : List (Nat × Run)
deriving DecidableEq, Repr

/-- First-match lookup in an association list. -/
def assocFind {κ α : Type} [DecidableEq κ] (k : κ) : List (κ × α) → Option α
  | [] => none
  | (k', v) :: rest => if k = k' then some v else assocFind k rest

/-- Replace the value of the first entry with the given key. -/
def assocUpdate {κ α : Type} [DecidableEq κ] (l : List (κ × α)) (k : κ) (v : α) :
    List (κ × α) :=
  match l with
  | [] => []
  | (k', v') :: rest =>
    if k = k' then (k, v) :: rest else (k', v') :: assocUpdate rest k v

/-- Append a metric entry to the series of key `k`, creating the series if
the key is new; series order is insertion order. -/
def appendMetric (ms : List (String × List MetricEntry)) (k : String)
    (e : MetricEntry) : List (String × List MetricEntry) :=
  match ms with
  | [] => [(k, [e])]
  | (k', l) :: rest =>
    if k = k' then (k', l ++ [e]) :: rest else (k', l) :: appendMetric rest k e

/-- Modelled from the spec: `create_run()` (§4.1) — allocates a fresh id,
starts the run RUNNING with `start_time = now`, persists the record. -/
def Store.createRun (s : Store) : Nat × Store :=
  (s.nextId,
   { nextId := s.nextId + 1
     clock := s.clock + 1
     runs := s.runs ++ [(s.nextId,
       { runId := s.nextId, status := .RUNNING, startTime := s.clock,
         endTime := none, params := [], metrics := [], artifacts := [],
         tags := [] })] })

/-- Modelled from the spec: `get_run(run_id)` (§4.1) — `NotFoundError` if
absent, otherwise the run's record (a snapshot: values are immutable here). -/
def Store.getRun (s : Store) (rid : Nat) : Except TrackingError Run :=
  match assocFind rid s.runs with
  | none => .error .NotFoundError
  | some r => .ok r

/-- Modelled from the spec: `log_param(run_id, key, value)` (§4.1), with the
first-write-wins policy the spec recommends: `NotFoundError` on an unknown
run, `InvalidStateError` on a terminal run, `ConflictError` on a duplicate
key; the stored value is the string coercion of the given value. -/
def Store.logParam (s : Store) (rid : Nat) (k : String) (v : PValue) :
    Except TrackingError Store :=
  match assocFind rid s.runs with
  | none => .error .NotFoundError
  | some r =>
    if r.status.isTerminal then .error .InvalidStateError
    else match assocFind k r.params with
      | some _ => .error .ConflictError
      | none => .ok { s with
          clock := s.clock + 1
          runs := assocUpdate s.runs rid
            { r with params := r.params ++ [(k, v.render)] } }

/-- Modelled from the spec: `log_metric(run_id, key, value, step)` (§4.1) —
appends to the key's time series, never fails due to a duplicate key;
`NotFoundError` / `InvalidStateError` as for `log_param`.  A missing step
defaults to 0; the timestamp is the store clock. -/
def Store.logMetric (s : Store) (rid : Nat) (k : String) (v : Int)
    (step : Option Nat) : Except TrackingError Store :=
  match assocFind rid s.runs with
  | none => .error .NotFoundError
  | some r =>
    if r.status.isTerminal then .error .InvalidStateError
    else .ok { s with
        clock := s.clock + 1
        runs := assocUpdate s.runs rid
          { r with metrics :=
              appendMetric r.metrics k ⟨v, step.getD 0, s.clock⟩ } }

/-- Modelled from the spec: `log_artifact(run_id, name, blob)` (§4.1) —
write-once per name, `ConflictError` on a duplicate name; blobs are opaque. -/
def Store.logArtifact (s : Store) (rid : Nat) (name : String) (blob : Nat) :
    Except TrackingError Store :=
  match assocFind rid s.runs with
  | none => .error .NotFoundError
  | some r =>
    if r.status.isTerminal then .error .InvalidStateError
    else match assocFind name r.artifacts with
      | some _ => .error .ConflictError
      | none => .ok { s with
          clock := s.clock + 1
          runs := assocUpdate s.runs rid
            { r with artifacts := r.artifacts ++ [(name, blob)] } }

/-- Modelled from the spec: tag writes (§3: same overwrite policy as params). -/
def Store.setTag (s : Store) (rid : Nat) (k v : String) :
    Except TrackingError Store :=
  match assocFind rid s.runs with
  | none => .error .NotFoundError
  | some r =>
    if r.status.isTerminal then .error .InvalidStateError
    else match assocFind k r.tags with
      | some _ => .error .ConflictError
      | none => .ok { s with
          clock := s.clock + 1
          runs := assocUpdate s.runs rid { r with tags := r.tags ++ [(k, v)] } }

/-- Modelled from the spec: `set_terminal(run_id, status)` (§4.1) — status
must be FINISHED or FAILED, fails with `InvalidStateError` if the run is
already terminal, sets `end_time = now`. -/
def Store.setTerminal (s : Store) (rid : Nat) (st : RunStatus) :
    Except TrackingError Store :=
  if st.isTerminal = false then .error .InvalidStateError
  else match assocFind rid s.runs with
    | none => .error .NotFoundError
    | some r =>
      if r.status.isTerminal then .error .InvalidStateError
      else .ok { s with
          clock := s.clock + 1
          runs := assocUpdate s.runs rid
            { r with status := st, endTime := some s.clock } }

/-- One operation a run body may issue.  Per §4.2 the Run Context exposes
the logging calls bound to the context's `run_id`; `fail` models an error
raised by the user code itself (e.g. a training failure) reaching the
context's scope. -/
inductive Op where
  | logParam (k : String) (v : PValue)
  | logMetric (k : String) (v : Int) (step : Option Nat)
  | logArtifact (name : String) (blob : Nat)
  | setTag (k v : String)
  | fail (code : Nat)
deriving DecidableEq, Repr

/-- Execute one body operation against the store. -/
def Store.execOp (s : Store) (rid : Nat) : Op → Except TrackingError Store
  | .logParam k v => s.logParam rid k v
  | .logMetric k v step => s.logMetric rid k v step
  | .logArtifact name blob => s.logArtifact rid name blob
  | .setTag k v => s.setTag rid k v
  | .fail code => .error (.UserError code)

/-- Run a body: operations execute in order; the first error aborts the
rest of the body and propagates (a failing operation leaves the store
unchanged, so the returned store is the state reached before the failure). -/
def Store.runOps (s : Store) (rid : Nat) : List Op → Store × Option TrackingError
  | [] => (s, none)
  | op :: rest =>
    match s.execOp rid op with
    | .ok s' => s'.runOps rid rest
    | .error e => (s, some e)

/-- Modelled from the spec: the Run Context (§4.2, `mlflow.start_run`): on
entry `create_run`; the body's operations run bound to the new `run_id`; on
exit `set_terminal(rid, FINISHED)` if no error propagated, else
`set_terminal(rid, FAILED)`, and the original error propagates unchanged.
Returns (run id, final store, propagated error if any). -/
def Store.withRun (s : Store) (ops : List Op) :
    Nat × Store × Option TrackingError :=
  let c := s.createRun
  let b := c.2.runOps c.1 ops
  match b.2 with
  | none =>
    match b.1.setTerminal c.1 .FINISHED with
    | .ok s3 => (c.1, s3, none)
    | .error e2 => (c.1, b.1, some e2)
  | some e =>
    match b.1.setTerminal c.1 .FAILED with
    | .ok s3 => (c.1, s3, some e)
    | .error _ => (c.1, b.1, some e)

/-- The notebook's reference workflow: iterate over model configurations,
opening one Run Context per configuration, strictly sequentially; collect
the created run ids in order. -/
def Store.workflow (s : Store) : List (List Op) → Store × List Nat
  | [] => (s, [])
  | body :: rest =>
    let w := s.withRun body
    let t := w.2.1.workflow rest
    (t.1, w.1 :: t.2)

/-- Status of a run in the store, if present. -/
def statusOf (s : Store) (rid : Nat) : Option RunStatus :=
  (assocFind rid s.runs).map Run.status

/-- End time of a run in the store, if the run is present. -/
def endTimeOf (s : Store) (rid : Nat) : Option (Option Nat) :=
  (assocFind rid s.runs).map Run.endTime

/-- Params of a run in the store, if present. -/
def paramsOf (s : Store) (rid : Nat) : Option (List (String × String)) :=
  (assocFind rid s.runs).map Run.params

/-- Metrics of a run in the store, if present. -/
def metricsOf (s : Store) (rid : Nat) : Option (List (String × List MetricEntry)) :=
  (assocFind rid s.runs).map Run.metrics

/-- The time series of metric key `k` in run record `r` ([] if never logged). -/
def seriesOf (r : Run) (k : String) : List MetricEntry :=
  (assocFind k r.metrics).getD []

/-- Well-formedness: every stored run id is below the identity counter (so
freshly allocated ids are new), and run ids are not duplicated. -/
def Store.WF (s : Store) : Prop :=
  (∀ p ∈ s.runs, p.1 < s.nextId) ∧ (s.runs.map Prod.fst).Nodup

/-- All runs in the store are in a terminal state. -/
def allTerminal (s : Store) : Prop :=
  ∀ p ∈ s.runs, p.2.status.isTerminal = true

/-- The empty store. -/
def emptyStore : Store := { nextId := 0, clock := 0, runs := [] }

/-- A sequence of `log_metric` calls on the same key, in order; the first
error aborts the rest, as in the notebook's sequential logging. -/
def Store.logMetricList (s : Store) (rid : Nat) (k : String)
    (vs : List (Int × Option Nat)) : Except TrackingError Store :=
  match vs with
  | [] => .ok s
  | v :: rest =>
    match s.logMetric rid k v.1 v.2 with
    | .ok s' => s'.logMetricList rid k rest
    | .error e => .error e

/-- The (value, step) projection of the time series of key `k` of run
`rid`, if that run exists. -/
def seriesVS (s : Store) (rid : Nat) (k : String) : Option (List (Int × Nat)) :=
  (assocFind rid s.runs).map (fun r => (seriesOf r k).map (fun e => (e.value, e.step)))

/-- A freshly created RUNNING run with id 0 (the record `create_run` makes
on the empty store). -/
def demoRun0 : Run :=
  { runId := 0, status := .RUNNING, startTime := 0, endTime := none,
    params := [], metrics := [], artifacts := [], tags := [] }

/-- The store after one `create_run` on the empty store: run 0 is RUNNING. -/
def demoStore : Store := { nextId := 1, clock := 1, runs := [(0, demoRun0)] }

/-- A store whose single run 0 has already taken its terminal transition
(the result of `set_terminal(0, FINISHED)` on `demoStore`). -/
def demoFinishedStore : Store :=
  { nextId := 1, clock := 2, runs := [(0,
    { runId := 0, status := .FINISHED, startTime := 0, endTime := some 1,
      params := [], metrics := [], artifacts := [], tags := [] })] }

/-- Bodies resembling the notebook's two iterations (Ridge and random
forest): log the model name and grid-search entries as params, then the
cross-validation and test metrics. -/
def demoBodies : List (List Op) :=
  [ [ .logParam "Model" (.str "RidgeRegression"),
      .logParam "param_alpha" (.numList [0, 1]),
      .logMetric "CV mean score" (-59) none,
      .logMetric "Test score" 51 none ],
    [ .logParam "Model" (.str "RandomForestRegression"),
      .logParam "param_n_estimators" (.numList [5, 10, 5, 10]),
      .logMetric "CV mean score" 65 none,
      .logMetric "Test score" 45 none ] ]

/-- The store after `create_run` on the empty store followed by one
successful `log_param("Model", "Ridge")`. -/
def demoLoggedStore : Store :=
  { nextId := 1, clock := 2, runs := [(0,
    { runId := 0, status := .RUNNING, startTime := 0, endTime := none,
      params := [("Model", "Ridge")], metrics := [], artifacts := [],
      tags := [] })] }

/-! ## Association-list lemmas -/

theorem assocFind_update_self {κ α : Type} [DecidableEq κ] (l : List (κ × α))
    (k : κ) (v : α) :
    assocFind k (assocUpdate l k v) = (assocFind k l).map (fun _ => v) := by
  induction l with
  | nil => rfl
  | cons p rest ih =>
    obtain ⟨k', v'⟩ := p
    by_cases h : k = k' <;> simp [assocUpdate, assocFind, h, ih]

theorem assocFind_update_ne {κ α : Type} [DecidableEq κ] (l : List (κ × α))
    (k k' : κ) (v : α) (h : k' ≠ k) :
    assocFind k' (assocUpdate l k v) = assocFind k' l := by
  induction l with
  | nil => rfl
  | cons p rest ih =>
    obtain ⟨k0, v0⟩ := p
    by_cases hk : k = k0
    · subst hk
      simp [assocUpdate, assocFind, h, ih]
    · by_cases hk' : k' = k0 <;> simp [assocUpdate, assocFind, hk, hk', ih]

theorem assocUpdate_keys {κ α : Type} [DecidableEq κ] (l : List (κ × α))
    (k : κ) (v : α) :
    (assocUpdate l k v).map Prod.fst = l.map Prod.fst := by
  induction l with
  | nil => rfl
  | cons p rest ih =>
    obtain ⟨k0, v0⟩ := p
    by_cases hk : k = k0 <;> simp [assocUpdate, hk, ih]

theorem assocFind_append_single {κ α : Type} [DecidableEq κ] (l : List (κ × α))
    (k k2 : κ) (v : α) :
    assocFind k (l ++ [(k2, v)]) =
      match assocFind k l with
      | some v' => some v'
      | none => if k = k2 then some v else none := by
  induction l with
  | nil => simp [assocFind]
  | cons p rest ih =>
    obtain ⟨k0, v0⟩ := p
    by_cases hk : k = k0 <;> simp [assocFind, hk, ih]

theorem assocFind_lt_append {κ α : Type} [DecidableEq κ] (l : List (κ × α))
    (k k2 : κ) (v : α) (h : k ≠ k2) :
    assocFind k (l ++ [(k2, v)]) = assocFind k l := by
  rw [assocFind_append_single]
  cases hf : assocFind k l <;> simp [h]

theorem assocFind_eq_none_of_forall_lt {α : Type} (l : List (Nat × α)) (n : Nat)
    (h : ∀ p ∈ l, p.1 < n) : assocFind n l = none := by
  induction l with
  | nil => rfl
  | cons p rest ih =>
    have hp := h p (by simp)
    have hne : n ≠ p.1 := by omega
    simpa [assocFind, hne] using ih (fun q hq => h q (by simp [hq]))

theorem assocFind_mem {κ α : Type} [DecidableEq κ] (l : List (κ × α))
    (k : κ) (v : α) (h : assocFind k l = some v) : (k, v) ∈ l := by
  induction l with
  | nil => simp [assocFind] at h
  | cons p rest ih =>
    obtain ⟨k0, v0⟩ := p
    by_cases hk : k = k0
    · simp [assocFind, hk] at h
      simp [hk, h]
    · simp [assocFind, hk] at h
      simp [ih h]

theorem mem_assocFind_of_nodup {κ α : Type} [DecidableEq κ] (l : List (κ × α))
    (p : κ × α) (hnd : (l.map Prod.fst).Nodup) (h : p ∈ l) :
    assocFind p.1 l = some p.2 := by
  induction l with
  | nil => simp at h
  | cons q rest ih =>
    rcases List.mem_cons.mp h with h | h
    · subst h
      simp [assocFind]
    · simp [List.nodup_cons] at hnd
      have hp : (p.1, p.2) ∈ rest := by
        rw [Prod.mk.eta]
        exact h
      have hne : p.1 ≠ q.1 := by
        intro he
        exact hnd.1 p.2 (he ▸ hp)
      simp [assocFind, hne]
      exact ih hnd.2 h

theorem seriesOf_appendMetric_self (ms : List (String × List MetricEntry))
    (k : String) (e : MetricEntry) :
    assocFind k (appendMetric ms k e) = some ((assocFind k ms).getD [] ++ [e]) := by
  induction ms with
  | nil => simp [appendMetric, assocFind]
  | cons p rest ih =>
    obtain ⟨k0, l0⟩ := p
    by_cases hk : k = k0 <;> simp [appendMetric, assocFind, hk, ih]

theorem seriesOf_appendMetric_ne (ms : List (String × List MetricEntry))
    (k k' : String) (e : MetricEntry) (h : k' ≠ k) :
    assocFind k' (appendMetric ms k e) = assocFind k' ms := by
  induction ms with
  | nil => simp [appendMetric, assocFind, h]
  | cons p rest ih =>
    obtain ⟨k0, l0⟩ := p
    by_cases hk : k = k0
    · subst hk
      simp [appendMetric, assocFind, h, ih]
    · by_cases hk' : k' = k0 <;> simp [appendMetric, assocFind, hk, hk', ih]

/-! ## Inversion lemmas for the store operations -/

theorem logParam_ok_elim {s : Store} {rid : Nat} {k : String} {v : PValue}
    {s' : Store} (h : s.logParam rid k v = .ok s') :
    ∃ r, assocFind rid s.runs = some r ∧ r.status.isTerminal = false ∧
      assocFind k r.params = none ∧
      s' = { s with
             clock := s.clock + 1
             runs := assocUpdate s.runs rid
               { r with params := r.params ++ [(k, v.render)] } } := by
  unfold Store.logParam at h
  split at h
  · exact absurd h (by simp)
  · rename_i r hf
    split at h
    · exact absurd h (by simp)
    · rename_i ht
      split at h
      · exact absurd h (by simp)
      · rename_i hp
        exact ⟨r, hf, by simpa using ht, hp, (Except.ok.inj h).symm⟩

theorem logMetric_ok_elim {s : Store} {rid : Nat} {k : String} {v : Int}
    {step : Option Nat} {s' : Store} (h : s.logMetric rid k v step = .ok s') :
    ∃ r, assocFind rid s.runs = some r ∧ r.status.isTerminal = false ∧
      s' = { s with
             clock := s.clock + 1
             runs := assocUpdate s.runs rid
               { r with metrics :=
                   appendMetric r.metrics k ⟨v, step.getD 0, s.clock⟩ } } := by
  unfold Store.logMetric at h
  split at h
  · exact absurd h (by simp)
  · rename_i r hf
    split at h
    · exact absurd h (by simp)
    · rename_i ht
      exact ⟨r, hf, by simpa using ht, (Except.ok.inj h).symm⟩

theorem logArtifact_ok_elim {s : Store} {rid : Nat} {name : String} {blob : Nat}
    {s' : Store} (h : s.logArtifact rid name blob = .ok s') :
    ∃ r, assocFind rid s.runs = some r ∧ r.status.isTerminal = false ∧
      assocFind name r.artifacts = none ∧
      s' = { s with
             clock := s.clock + 1
             runs := assocUpdate s.runs rid
               { r with artifacts := r.artifacts ++ [(name, blob)] } } := by
  unfold Store.logArtifact at h
  split at h
  · exact absurd h (by simp)
  · rename_i r hf
    split at h
    · exact absurd h (by simp)
    · rename_i ht
      split at h
      · exact absurd h (by simp)
      · rename_i hp
        exact ⟨r, hf, by simpa using ht, hp, (Except.ok.inj h).symm⟩

theorem setTag_ok_elim {s : Store} {rid : Nat} {k v : String}
    {s' : Store} (h : s.setTag rid k v = .ok s') :
    ∃ r, assocFind rid s.runs = some r ∧ r.status.isTerminal = false ∧
      assocFind k r.tags = none ∧
      s' = { s with
             clock := s.clock + 1
             runs := assocUpdate s.runs rid
               { r with tags := r.tags ++ [(k, v)] } } := by
  unfold Store.setTag at h
  split at h
  · exact absurd h (by simp)
  · rename_i r hf
    split at h
    · exact absurd h (by simp)
    · rename_i ht
      split at h
      · exact absurd h (by simp)
      · rename_i hp
        exact ⟨r, hf, by simpa using ht, hp, (Except.ok.inj h).symm⟩

theorem setTerminal_ok_elim {s : Store} {rid : Nat} {st : RunStatus}
    {s' : Store} (h : s.setTerminal rid st = .ok s') :
    st.isTerminal = true ∧
    ∃ r, assocFind rid s.runs = some r ∧ r.status.isTerminal = false ∧
      s' = { s with
             clock := s.clock + 1
             runs := assocUpdate s.runs rid
               { r with status := st, endTime := some s.clock } } := by
  unfold Store.setTerminal at h
  split at h
  · exact absurd h (by simp)
  · rename_i hst
    split at h
    · exact absurd h (by simp)
    · rename_i r hf
      split at h
      · exact absurd h (by simp)
      · rename_i ht
        exact ⟨by simpa using hst, r, hf, by simpa using ht,
          (Except.ok.inj h).symm⟩

/-- A `set_terminal` on a RUNNING run with a terminal target status succeeds
and produces exactly the expected store. -/
theorem setTerminal_running {s : Store} {rid : Nat} {r : Run} {st : RunStatus}
    (hf : assocFind rid s.runs = some r) (hr : r.status = .RUNNING)
    (hst : st.isTerminal = true) :
    s.setTerminal rid st = .ok { s with
      clock := s.clock + 1
      runs := assocUpdate s.runs rid
        { r with status := st, endTime := some s.clock } } := by
  unfold Store.setTerminal
  rw [hst, hf]
  simp [hr, RunStatus.isTerminal]

/-! ## Preservation lemmas -/

theorem find_update_status (runs : List (Nat × Run)) (rid : Nat) (r r' : Run)
    (hf : assocFind rid runs = some r) (hst : r'.status = r.status) (x : Nat) :
    (assocFind x (assocUpdate runs rid r')).map Run.status =
      (assocFind x runs).map Run.status := by
  by_cases hx : x = rid
  · subst hx
    rw [assocFind_update_self, hf]
    simp [hst]
  · rw [assocFind_update_ne _ _ _ _ hx]

/-- Every body operation, when it succeeds, preserves the identity counter,
the set of run ids, and the status of every run. -/
theorem execOp_ok_shape {s : Store} {rid : Nat} {op : Op} {s' : Store}
    (h : s.execOp rid op = .ok s') :
    s'.nextId = s.nextId ∧ s'.runs.map Prod.fst = s.runs.map Prod.fst ∧
      ∀ x, statusOf s' x = statusOf s x := by
  cases op with
  | logParam k v =>
    obtain ⟨r, hf, _, _, hs⟩ := logParam_ok_elim h
    subst hs
    exact ⟨rfl, assocUpdate_keys _ _ _, fun x => find_update_status s.runs rid r
      { r with params := r.params ++ [(k, v.render)] } hf rfl x⟩
  | logMetric k v step =>
    obtain ⟨r, hf, _, hs⟩ := logMetric_ok_elim h
    subst hs
    exact ⟨rfl, assocUpdate_keys _ _ _, fun x => find_update_status s.runs rid r
      { r with metrics := appendMetric r.metrics k ⟨v, step.getD 0, s.clock⟩ }
      hf rfl x⟩
  | logArtifact name blob =>
    obtain ⟨r, hf, _, _, hs⟩ := logArtifact_ok_elim h
    subst hs
    exact ⟨rfl, assocUpdate_keys _ _ _, fun x => find_update_status s.runs rid r
      { r with artifacts := r.artifacts ++ [(name, blob)] } hf rfl x⟩
  | setTag k v =>
    obtain ⟨r, hf, _, _, hs⟩ := setTag_ok_elim h
    subst hs
    exact ⟨rfl, assocUpdate_keys _ _ _, fun x => find_update_status s.runs rid r
      { r with tags := r.tags ++ [(k, v)] } hf rfl x⟩
  | fail code => exact absurd h (by simp [Store.execOp])

/-- Running a body preserves the identity counter, the set of run ids, and
the status of every run: a body never performs a terminal transition. -/
theorem runOps_shape (ops : List Op) (s : Store) (rid : Nat) :
    ((s.runOps rid ops).1).nextId = s.nextId ∧
    ((s.runOps rid ops).1).runs.map Prod.fst = s.runs.map Prod.fst ∧
      ∀ x, statusOf (s.runOps rid ops).1 x = statusOf s x := by
  induction ops generalizing s with
  | nil => exact ⟨rfl, rfl, fun _ => rfl⟩
  | cons op rest ih =>
    cases hop : s.execOp rid op with
    | ok s' =>
      have hrw : s.runOps rid (op :: rest) = s'.runOps rid rest := by
        simp [Store.runOps, hop]
      obtain ⟨h1, h2, h3⟩ := execOp_ok_shape hop
      obtain ⟨g1, g2, g3⟩ := ih s'
      rw [hrw]
      exact ⟨by rw [g1, h1], by rw [g2, h2], fun x => by rw [g3 x, h3 x]⟩
    | error e =>
      have hrw : s.runOps rid (op :: rest) = (s, some e) := by
        simp [Store.runOps, hop]
      rw [hrw]
      exact ⟨rfl, rfl, fun _ => rfl⟩

/-- The run id allocated by `create_run` is not yet in a well-formed store. -/
theorem createRun_fresh (s : Store) (hwf : s.WF) :
    assocFind s.nextId s.runs = none :=
  assocFind_eq_none_of_forall_lt _ _ hwf.1

theorem statusOf_createRun_self (s : Store) (hwf : s.WF) :
    statusOf (s.createRun).2 s.nextId = some .RUNNING := by
  unfold statusOf Store.createRun
  rw [assocFind_append_single, createRun_fresh s hwf]
  simp

theorem statusOf_createRun_ne (s : Store) (x : Nat) (hx : x ≠ s.nextId) :
    statusOf (s.createRun).2 x = statusOf s x := by
  unfold statusOf Store.createRun
  rw [assocFind_lt_append _ _ _ _ hx]

theorem paramsOf_createRun_self (s : Store) (hwf : s.WF) :
    paramsOf (s.createRun).2 s.nextId = some [] := by
  unfold paramsOf Store.createRun
  rw [assocFind_append_single, createRun_fresh s hwf]
  simp

theorem metricsOf_createRun_self (s : Store) (hwf : s.WF) :
    metricsOf (s.createRun).2 s.nextId = some [] := by
  unfold metricsOf Store.createRun
  rw [assocFind_append_single, createRun_fresh s hwf]
  simp

theorem createRun_keys (s : Store) :
    (s.createRun).2.runs.map Prod.fst = s.runs.map Prod.fst ++ [s.nextId] := by
  simp [Store.createRun]

/-- A store whose run-id set gained exactly the freshly allocated id and
whose counter advanced is again well-formed. -/
theorem WF_keys_append {s s' : Store} (hwf : s.WF)
    (hk : s'.runs.map Prod.fst = s.runs.map Prod.fst ++ [s.nextId])
    (hn : s'.nextId = s.nextId + 1) : s'.WF := by
  have hnot : s.nextId ∉ s.runs.map Prod.fst := by
    intro hmem
    obtain ⟨q, hq, he⟩ := List.mem_map.mp hmem
    have := hwf.1 q hq
    omega
  constructor
  · intro p hp
    have hmem : p.1 ∈ s'.runs.map Prod.fst := List.mem_map.mpr ⟨p, hp, rfl⟩
    rw [hk] at hmem
    rw [hn]
    rcases List.mem_append.mp hmem with hmem | hmem
    · obtain ⟨q, hq, he⟩ := List.mem_map.mp hmem
      have := hwf.1 q hq
      omega
    · simp at hmem
      omega
  · rw [hk]
    exact List.Nodup.append hwf.2 (List.nodup_singleton _)
      (List.disjoint_singleton.mpr hnot)

theorem WF_of_keys_nextId {s s' : Store} (hwf : s.WF)
    (hk : s'.runs.map Prod.fst = s.runs.map Prod.fst) (hn : s'.nextId = s.nextId) :
    s'.WF := by
  constructor
  · intro p hp
    have hmem : p.1 ∈ s'.runs.map Prod.fst := List.mem_map.mpr ⟨p, hp, rfl⟩
    rw [hk] at hmem
    obtain ⟨q, hq, he⟩ := List.mem_map.mp hmem
    rw [hn, ← he]
    exact hwf.1 q hq
  · rw [hk]
    exact hwf.2

theorem statusOf_running_elim {s : Store} {rid : Nat}
    (h : statusOf s rid = some .RUNNING) :
    ∃ r, assocFind rid s.runs = some r ∧ r.status = .RUNNING := by
  unfold statusOf at h
  cases hf : assocFind rid s.runs with
  | none => rw [hf] at h; simp at h
  | some r =>
    rw [hf] at h
    exact ⟨r, rfl, by simpa using h⟩

/-- Shape of a successful terminal transition: the target status and the end
time are recorded, every other field of every run is untouched. -/
theorem setTerminal_ok_shape {s : Store} {rid : Nat} {st : RunStatus}
    {s' : Store} (h : s.setTerminal rid st = .ok s') :
    s'.nextId = s.nextId ∧ s'.runs.map Prod.fst = s.runs.map Prod.fst ∧
    statusOf s' rid = some st ∧
    (∀ x, x ≠ rid → statusOf s' x = statusOf s x) ∧
    paramsOf s' rid = paramsOf s rid ∧
    metricsOf s' rid = metricsOf s rid ∧
    endTimeOf s' rid = some (some s.clock) := by
  obtain ⟨hst, r, hf, ht, hs⟩ := setTerminal_ok_elim h
  subst hs
  refine ⟨rfl, assocUpdate_keys _ _ _, ?_, ?_, ?_, ?_, ?_⟩
  · unfold statusOf
    rw [assocFind_update_self, hf]
    rfl
  · intro x hx
    unfold statusOf
    rw [assocFind_update_ne _ _ _ _ hx]
  · unfold paramsOf
    rw [assocFind_update_self, hf]
    rfl
  · unfold metricsOf
    rw [assocFind_update_self, hf]
    rfl
  · unfold endTimeOf
    rw [assocFind_update_self, hf]
    rfl

/-- The state of the store and the propagated error after the Run Context
has created its run and executed the body, just before the terminal
transition on exit. -/
def bodyState (s : Store) (ops : List Op) : Store × Option TrackingError :=
  (s.createRun).2.runOps s.nextId ops

/-- Master lemma for the Run Context: `withRun` allocates id `nextId`,
re-raises exactly the body's error, leaves the run FINISHED or FAILED
according to whether an error propagated, keeps the run still RUNNING
throughout the body (so exactly the one exit transition occurs), preserves
the body's logged params and metrics, touches no other run, and preserves
well-formedness. -/
theorem withRun_shape (s : Store) (ops : List Op) (hwf : s.WF) :
    (s.withRun ops).1 = s.nextId ∧
    (s.withRun ops).2.2 = (bodyState s ops).2 ∧
    statusOf (s.withRun ops).2.1 s.nextId =
      some (if (bodyState s ops).2.isSome then .FAILED else .FINISHED) ∧
    (∀ x, x ≠ s.nextId → statusOf (s.withRun ops).2.1 x = statusOf s x) ∧
    paramsOf (s.withRun ops).2.1 s.nextId = paramsOf (bodyState s ops).1 s.nextId ∧
    metricsOf (s.withRun ops).2.1 s.nextId = metricsOf (bodyState s ops).1 s.nextId ∧
    (s.withRun ops).2.1.nextId = s.nextId + 1 ∧
    (s.withRun ops).2.1.runs.map Prod.fst = s.runs.map Prod.fst ++ [s.nextId] ∧
    (s.withRun ops).2.1.WF ∧
    statusOf (bodyState s ops).1 s.nextId = some .RUNNING ∧
    endTimeOf (s.withRun ops).2.1 s.nextId = some (some (bodyState s ops).1.clock) := by
  have hc1 : (s.createRun).1 = s.nextId := rfl
  obtain ⟨hn1, hk1, hs1⟩ := runOps_shape ops (s.createRun).2 s.nextId
  rcases hb : (s.createRun).2.runOps s.nextId ops with ⟨s2, res⟩
  have hbs : bodyState s ops = (s2, res) := hb
  rw [hb] at hn1 hk1 hs1
  dsimp only at hn1 hk1 hs1
  have hrun : statusOf s2 s.nextId = some .RUNNING := by
    rw [hs1 s.nextId]
    exact statusOf_createRun_self s hwf
  obtain ⟨r2, hf2, hr2⟩ := statusOf_running_elim hrun
  have hkeys : s2.runs.map Prod.fst = s.runs.map Prod.fst ++ [s.nextId] := by
    rw [hk1, createRun_keys]
  have hnid : s2.nextId = s.nextId + 1 := by
    rw [hn1]
    rfl
  rw [hbs]
  cases res with
  | none =>
    have hterm := @setTerminal_running s2 s.nextId r2 RunStatus.FINISHED hf2 hr2 rfl
    have hw : s.withRun ops = (s.nextId,
        { s2 with
          clock := s2.clock + 1
          runs := assocUpdate s2.runs s.nextId
            { r2 with status := RunStatus.FINISHED, endTime := some s2.clock } },
        none) := by
      simp only [Store.withRun]
      rw [hc1, hb]
      simp [hterm]
    obtain ⟨g1, g2, g3, g4, g5, g6, g7⟩ := setTerminal_ok_shape hterm
    rw [hw]
    refine ⟨rfl, rfl, ?_, ?_, g5, g6, ?_, ?_, ?_, hrun, g7⟩
    · simpa using g3
    · intro x hx
      rw [g4 x hx, hs1 x]
      exact statusOf_createRun_ne s x hx
    · rw [g1, hnid]
    · rw [g2, hkeys]
    · exact WF_keys_append hwf (by rw [g2, hkeys]) (by rw [g1, hnid])
  | some e =>
    have hterm := @setTerminal_running s2 s.nextId r2 RunStatus.FAILED hf2 hr2 rfl
    have hw : s.withRun ops = (s.nextId,
        { s2 with
          clock := s2.clock + 1
          runs := assocUpdate s2.runs s.nextId
            { r2 with status := RunStatus.FAILED, endTime := some s2.clock } },
        some e) := by
      simp only [Store.withRun]
      rw [hc1, hb]
      simp [hterm]
    obtain ⟨g1, g2, g3, g4, g5, g6, g7⟩ := setTerminal_ok_shape hterm
    rw [hw]
    refine ⟨rfl, rfl, ?_, ?_, g5, g6, ?_, ?_, ?_, hrun, g7⟩
    · simpa using g3
    · intro x hx
      rw [g4 x hx, hs1 x]
      exact statusOf_createRun_ne s x hx
    · rw [g1, hnid]
    · rw [g2, hkeys]
    · exact WF_keys_append hwf (by rw [g2, hkeys]) (by rw [g1, hnid])

/-- `log_param` on a RUNNING run with a fresh key succeeds and appends the
stringified value. -/
theorem logParam_running {s : Store} {rid : Nat} {r : Run} {k : String}
    {v : PValue} (hf : assocFind rid s.runs = some r) (hr : r.status = .RUNNING)
    (hp : assocFind k r.params = none) :
    s.logParam rid k v = .ok { s with
      clock := s.clock + 1
      runs := assocUpdate s.runs rid
        { r with params := r.params ++ [(k, v.render)] } } := by
  unfold Store.logParam
  rw [hf]
  simp [hr, RunStatus.isTerminal, hp]

/-- `log_metric` on a RUNNING run succeeds and appends to the series. -/
theorem logMetric_running {s : Store} {rid : Nat} {r : Run} {k : String}
    {v : Int} {step : Option Nat} (hf : assocFind rid s.runs = some r)
    (hr : r.status = .RUNNING) :
    s.logMetric rid k v step = .ok { s with
      clock := s.clock + 1
      runs := assocUpdate s.runs rid
        { r with metrics := appendMetric r.metrics k ⟨v, step.getD 0, s.clock⟩ } } := by
  unfold Store.logMetric
  rw [hf]
  simp [hr, RunStatus.isTerminal]

/-- `get_run` returns the stored record of a present run. -/
theorem getRun_of_find {s : Store} {rid : Nat} {r : Run}
    (hf : assocFind rid s.runs = some r) : s.getRun rid = .ok r := by
  unfold Store.getRun
  rw [hf]

/-- The empty store is well-formed. -/
theorem emptyStore_WF : emptyStore.WF := by
  constructor
  · intro p hp
    simp [emptyStore] at hp
  · simp [emptyStore]

/-! ## Claim theorems -/

/-- C7: for every run_id not present in the store, `get_run` fails with
`NotFoundError`; for every run_id present, `get_run` returns the run's
recorded data. -/
theorem getRun_not_found_or_ok (s : Store) (rid : Nat) :
    (assocFind rid s.runs = none → s.getRun rid = .error .NotFoundError) ∧
    (∀ r, assocFind rid s.runs = some r → s.getRun rid = .ok r) := by
  constructor
  · intro h
    unfold Store.getRun
    rw [h]
  · intro r h
    unfold Store.getRun
    rw [h]

theorem getRun_not_found_or_ok_witness :
    demoStore.getRun 5 = .error .NotFoundError ∧ demoStore.getRun 0 = .ok demoRun0 :=
  ⟨(getRun_not_found_or_ok demoStore 5).1 (by decide),
   (getRun_not_found_or_ok demoStore 0).2 demoRun0 (by decide)⟩

/-- C3: every mutation attempt against a run in a terminal state —
`log_param`, `log_metric`, `log_artifact`, or a tag write — fails with
`InvalidStateError`.  A failing operation returns only the error and no
successor store, so the run's recorded data is unchanged by construction. -/
theorem terminal_run_rejects_mutations (s : Store) (rid : Nat) (r : Run)
    (hf : assocFind rid s.runs = some r) (ht : r.status.isTerminal = true) :
    (∀ k v, s.logParam rid k v = .error .InvalidStateError) ∧
    (∀ k v step, s.logMetric rid k v step = .error .InvalidStateError) ∧
    (∀ n b, s.logArtifact rid n b = .error .InvalidStateError) ∧
    (∀ k v, s.setTag rid k v = .error .InvalidStateError) := by
  refine ⟨fun k v => ?_, fun k v step => ?_, fun n b => ?_, fun k v => ?_⟩
  · unfold Store.logParam
    rw [hf]
    simp [ht]
  · unfold Store.logMetric
    rw [hf]
    simp [ht]
  · unfold Store.logArtifact
    rw [hf]
    simp [ht]
  · unfold Store.setTag
    rw [hf]
    simp [ht]

theorem terminal_run_rejects_mutations_witness :
    demoFinishedStore.logParam 0 "Model" (.str "Ridge") = .error .InvalidStateError ∧
    demoFinishedStore.logMetric 0 "score" 1 none = .error .InvalidStateError ∧
    demoFinishedStore.logArtifact 0 "model" 7 = .error .InvalidStateError ∧
    demoFinishedStore.setTag 0 "k" "v" = .error .InvalidStateError := by
  obtain ⟨h1, h2, h3, h4⟩ := terminal_run_rejects_mutations demoFinishedStore 0
    { runId := 0, status := .FINISHED, startTime := 0, endTime := some 1,
      params := [], metrics := [], artifacts := [], tags := [] }
    (by decide) (by decide)
  exact ⟨h1 "Model" (.str "Ridge"), h2 "score" 1 none, h3 "model" 7, h4 "k" "v"⟩

/-- C4: a run undergoes at most one terminal transition: once `set_terminal`
has succeeded for a run_id, any further `set_terminal` call on that run_id
fails with `InvalidStateError`, and the status and end time set by the
first call are retained. -/
theorem setTerminal_twice_fails (s s' : Store) (rid : Nat) (st : RunStatus)
    (h1 : s.setTerminal rid st = .ok s') :
    (∀ st2, s'.setTerminal rid st2 = .error .InvalidStateError) ∧
    statusOf s' rid = some st ∧
    endTimeOf s' rid = some (some s.clock) := by
  obtain ⟨hst, r, hf, ht, hs⟩ := setTerminal_ok_elim h1
  obtain ⟨_, _, g3, _, _, _, g7⟩ := setTerminal_ok_shape h1
  refine ⟨fun st2 => ?_, g3, g7⟩
  subst hs
  unfold Store.setTerminal
  cases hst2 : st2.isTerminal with
  | false => simp [hst2]
  | true =>
    rw [assocFind_update_self, hf]
    simp [hst2, hst]

theorem setTerminal_twice_fails_witness :
    (∀ st2, demoFinishedStore.setTerminal 0 st2 = .error .InvalidStateError) ∧
    statusOf demoFinishedStore 0 = some .FINISHED ∧
    endTimeOf demoFinishedStore 0 = some (some 1) :=
  setTerminal_twice_fails demoStore demoFinishedStore 0 .FINISHED rfl

/-- C5: under the first-write-wins policy, on a RUNNING run the first
`log_param` for a fresh key succeeds, any later `log_param` with the same
key fails with `ConflictError`, and `get_run` afterwards still returns the
value from the first successful write. -/
theorem logParam_first_write_wins (s : Store) (rid : Nat) (r : Run)
    (k : String) (v : PValue) (hf : assocFind rid s.runs = some r)
    (hr : r.status = .RUNNING) (hp : assocFind k r.params = none) :
    ∃ s', s.logParam rid k v = .ok s' ∧
      (∀ v2, s'.logParam rid k v2 = .error .ConflictError) ∧
      ∃ r', s'.getRun rid = .ok r' ∧ assocFind k r'.params = some v.render := by
  refine ⟨_, logParam_running hf hr hp, ?_, ?_⟩
  all_goals
    have hf' : assocFind rid (assocUpdate s.runs rid
        { r with params := r.params ++ [(k, v.render)] }) =
        some { r with params := r.params ++ [(k, v.render)] } := by
      rw [assocFind_update_self, hf]
      rfl
  all_goals
    have hk : assocFind k (r.params ++ [(k, v.render)]) = some v.render := by
      rw [assocFind_append_single, hp]
      simp
  · intro v2
    unfold Store.logParam
    rw [hf']
    simp [hr, RunStatus.isTerminal, hk]
  · refine ⟨{ r with params := r.params ++ [(k, v.render)] }, ?_, hk⟩
    unfold Store.getRun
    rw [hf']

theorem logParam_first_write_wins_witness :
    ∃ s', demoStore.logParam 0 "Model" (.str "Ridge") = .ok s' ∧
      (∀ v2, s'.logParam 0 "Model" v2 = .error .ConflictError) ∧
      ∃ r', s'.getRun 0 = .ok r' ∧
        assocFind "Model" r'.params = some (PValue.str "Ridge").render :=
  logParam_first_write_wins demoStore 0 demoRun0 "Model" (.str "Ridge")
    (by decide) (by decide) (by decide)

/-- C9: `log_param` accepts non-string values (such as numeric arrays from
grid-search results) and stores their string representation: the value
`get_run` returns for such a key is the stringified form, e.g. the array
`[0, 1]` is stored as the string `[0 1]`. -/
theorem logParam_stringifies_values (s : Store) (rid : Nat) (r : Run)
    (k : String) (v : PValue) (hf : assocFind rid s.runs = some r)
    (hr : r.status = .RUNNING) (hp : assocFind k r.params = none) :
    PValue.render (.numList [0, 1]) = "[0 1]" ∧
    ∃ s' r', s.logParam rid k v = .ok s' ∧ s'.getRun rid = .ok r' ∧
      assocFind k r'.params = some v.render := by
  refine ⟨rfl, _, { r with params := r.params ++ [(k, v.render)] },
    logParam_running hf hr hp, ?_, ?_⟩
  · unfold Store.getRun
    rw [assocFind_update_self, hf]
    rfl
  · show assocFind k (r.params ++ [(k, v.render)]) = some v.render
    rw [assocFind_append_single, hp]
    simp

theorem logParam_stringifies_values_witness :
    PValue.render (.numList [0, 1]) = "[0 1]" ∧
    ∃ s' r', demoStore.logParam 0 "param_alpha" (.numList [0, 1]) = .ok s' ∧
      s'.getRun 0 = .ok r' ∧
      assocFind "param_alpha" r'.params = some (PValue.numList [0, 1]).render :=
  logParam_stringifies_values demoStore 0 demoRun0 "param_alpha"
    (.numList [0, 1]) (by decide) (by decide) (by decide)

/-- C2: on a RUNNING run, any sequence of `log_metric` calls on the same key
succeeds (a duplicate key is never an error), each call appending a
(value, step, timestamp) entry; afterwards the run holds the full series in
exactly the insertion order (here projected to (value, step) pairs). -/
theorem logMetric_appends_series (s : Store) (rid : Nat) (r : Run) (k : String)
    (vs : List (Int × Option Nat)) (hf : assocFind rid s.runs = some r)
    (hr : r.status = .RUNNING) :
    ∃ s', s.logMetricList rid k vs = .ok s' ∧
      seriesVS s' rid k =
        some ((seriesOf r k).map (fun e => (e.value, e.step)) ++
          vs.map (fun p => (p.1, p.2.getD 0))) := by
  induction vs generalizing s r with
  | nil =>
    refine ⟨s, rfl, ?_⟩
    unfold seriesVS
    rw [hf]
    simp
  | cons v rest ih =>
    have hlm := @logMetric_running s rid r k v.1 v.2 hf hr
    have hf1 : assocFind rid (assocUpdate s.runs rid
        { r with metrics := appendMetric r.metrics k ⟨v.1, v.2.getD 0, s.clock⟩ }) =
        some { r with metrics := appendMetric r.metrics k ⟨v.1, v.2.getD 0, s.clock⟩ } := by
      rw [assocFind_update_self, hf]
      rfl
    obtain ⟨s', hok, hser⟩ := ih
      { s with
        clock := s.clock + 1
        runs := assocUpdate s.runs rid
          { r with metrics := appendMetric r.metrics k ⟨v.1, v.2.getD 0, s.clock⟩ } }
      { r with metrics := appendMetric r.metrics k ⟨v.1, v.2.getD 0, s.clock⟩ }
      hf1 hr
    refine ⟨s', ?_, ?_⟩
    · simp only [Store.logMetricList]
      rw [hlm]
      exact hok
    · rw [hser]
      have hseq : seriesOf
          { r with metrics := appendMetric r.metrics k ⟨v.1, v.2.getD 0, s.clock⟩ } k
          = seriesOf r k ++ [⟨v.1, v.2.getD 0, s.clock⟩] := by
        unfold seriesOf
        rw [seriesOf_appendMetric_self]
        rfl
      rw [hseq]
      simp

theorem logMetric_appends_series_witness :
    ∃ s', demoStore.logMetricList 0 "score" [(1, some 0), (2, some 1)] = .ok s' ∧
      seriesVS s' 0 "score" = some [(1, 0), (2, 1)] := by
  obtain ⟨s', h1, h2⟩ := logMetric_appends_series demoStore 0 demoRun0 "score"
    [(1, some 0), (2, some 1)] rfl rfl
  exact ⟨s', h1, by simpa using h2⟩

/-- C8: `get_run` succeeds on a run that is still RUNNING and reflects every
param and metric logged so far in that run: after a `log_param` and a
`log_metric` inside the open run, `get_run` returns a record that is still
RUNNING and contains the new param value and the appended metric entry
(read-your-writes on an open run). -/
theorem getRun_read_your_writes (s : Store) (rid : Nat) (r : Run)
    (pk : String) (pv : PValue) (mk0 : String) (mv : Int) (step : Option Nat)
    (hf : assocFind rid s.runs = some r) (hr : r.status = .RUNNING)
    (hp : assocFind pk r.params = none) :
    ∃ s1 s2 r2, s.logParam rid pk pv = .ok s1 ∧
      s1.logMetric rid mk0 mv step = .ok s2 ∧
      s2.getRun rid = .ok r2 ∧ r2.status = .RUNNING ∧
      assocFind pk r2.params = some pv.render ∧
      (seriesOf r2 mk0).map (fun e => (e.value, e.step)) =
        (seriesOf r mk0).map (fun e => (e.value, e.step)) ++ [(mv, step.getD 0)] := by
  have h1 := @logParam_running s rid r pk pv hf hr hp
  have hf1 : assocFind rid (assocUpdate s.runs rid
      { r with params := r.params ++ [(pk, pv.render)] }) =
      some { r with params := r.params ++ [(pk, pv.render)] } := by
    rw [assocFind_update_self, hf]
    rfl
  have h2 : Store.logMetric { s with
      clock := s.clock + 1
      runs := assocUpdate s.runs rid
        { r with params := r.params ++ [(pk, pv.render)] } } rid mk0 mv step =
      .ok { s with
        clock := s.clock + 2
        runs := assocUpdate (assocUpdate s.runs rid
            { r with params := r.params ++ [(pk, pv.render)] }) rid
          { r with
            params := r.params ++ [(pk, pv.render)]
            metrics := appendMetric r.metrics mk0 ⟨mv, step.getD 0, s.clock + 1⟩ } } :=
    @logMetric_running
      { s with
        clock := s.clock + 1
        runs := assocUpdate s.runs rid
          { r with params := r.params ++ [(pk, pv.render)] } }
      rid { r with params := r.params ++ [(pk, pv.render)] } mk0 mv step hf1 hr
  have hf2 : assocFind rid (assocUpdate (assocUpdate s.runs rid
      { r with params := r.params ++ [(pk, pv.render)] }) rid
      { r with
        params := r.params ++ [(pk, pv.render)]
        metrics := appendMetric r.metrics mk0 ⟨mv, step.getD 0, s.clock + 1⟩ }) =
      some { r with
        params := r.params ++ [(pk, pv.render)]
        metrics := appendMetric r.metrics mk0 ⟨mv, step.getD 0, s.clock + 1⟩ } := by
    rw [assocFind_update_self, hf1]
    rfl
  refine ⟨_, _, { r with
      params := r.params ++ [(pk, pv.render)]
      metrics := appendMetric r.metrics mk0 ⟨mv, step.getD 0, s.clock + 1⟩ },
    h1, h2, getRun_of_find hf2, hr, ?_, ?_⟩
  · show assocFind pk (r.params ++ [(pk, pv.render)]) = some pv.render
    rw [assocFind_append_single, hp]
    simp
  · show ((assocFind mk0 (appendMetric r.metrics mk0
        ⟨mv, step.getD 0, s.clock + 1⟩)).getD []).map (fun e => (e.value, e.step)) = _
    rw [seriesOf_appendMetric_self]
    simp [seriesOf]

theorem getRun_read_your_writes_witness :
    ∃ s1 s2 r2, demoStore.logParam 0 "Model" (.str "RidgeRegression") = .ok s1 ∧
      s1.logMetric 0 "CV mean score" 59 none = .ok s2 ∧
      s2.getRun 0 = .ok r2 ∧ r2.status = .RUNNING ∧
      assocFind "Model" r2.params = some "RidgeRegression" ∧
      (seriesOf r2 "CV mean score").map (fun e => (e.value, e.step)) = [(59, 0)] := by
  obtain ⟨s1, s2, r2, h1, h2, h3, h4, h5, h6⟩ := getRun_read_your_writes demoStore
    0 demoRun0 "Model" (.str "RidgeRegression") "CV mean score" 59 none
    rfl rfl rfl
  exact ⟨s1, s2, r2, h1, h2, h3, h4, h5, by simpa using h6⟩

/-- Running a body that succeeds and then more operations continues from
the reached state. -/
theorem runOps_append_of_ok {ops1 : List Op} {s s2 : Store} {rid : Nat}
    (h : s.runOps rid ops1 = (s2, none)) (ops2 : List Op) :
    s.runOps rid (ops1 ++ ops2) = s2.runOps rid ops2 := by
  induction ops1 generalizing s with
  | nil =>
    have hs : s = s2 := congrArg Prod.fst h
    subst hs
    rfl
  | cons op rest ih =>
    cases hop : s.execOp rid op with
    | ok s' =>
      have h1 : s'.runOps rid rest = (s2, none) := by
        have he : s.runOps rid (op :: rest) = s'.runOps rid rest := by
          simp [Store.runOps, hop]
        rwa [he] at h
      have he2 : s.runOps rid ((op :: rest) ++ ops2) = s'.runOps rid (rest ++ ops2) := by
        simp [Store.runOps, hop]
      rw [he2, ih h1]
    | error e =>
      exfalso
      have he : s.runOps rid (op :: rest) = (s, some e) := by
        simp [Store.runOps, hop]
      rw [he] at h
      simp at h

/-- C1: for every run opened through the Run Context: the run is still
RUNNING when the body has finished (the body performs no terminal
transition, so the one transition on exit is the only one); if the body
completed without an error the run's final status is FINISHED; if an error
propagated the final status is FAILED; and the context's propagated error is
exactly the body's error, unchanged. -/
theorem runContext_terminal_status (s : Store) (ops : List Op) (hwf : s.WF) :
    (s.withRun ops).1 = s.nextId ∧
    statusOf (bodyState s ops).1 s.nextId = some .RUNNING ∧
    (s.withRun ops).2.2 = (bodyState s ops).2 ∧
    ((bodyState s ops).2 = none →
      statusOf (s.withRun ops).2.1 s.nextId = some .FINISHED) ∧
    (∀ e, (bodyState s ops).2 = some e →
      (s.withRun ops).2.2 = some e ∧
      statusOf (s.withRun ops).2.1 s.nextId = some .FAILED) := by
  obtain ⟨g1, g2, g3, _, _, _, _, _, _, g10, _⟩ := withRun_shape s ops hwf
  refine ⟨g1, g10, g2, ?_, ?_⟩
  · intro h
    rw [h] at g3
    simpa using g3
  · intro e h
    rw [h] at g2 g3
    exact ⟨g2, by simpa using g3⟩

theorem runContext_terminal_status_witness :
    (emptyStore.withRun [Op.logParam "Model" (.str "Ridge")]).2.2 = none ∧
    statusOf (emptyStore.withRun [Op.logParam "Model" (.str "Ridge")]).2.1 0 =
      some .FINISHED := by
  obtain ⟨g1, g2, g3, g4, g5⟩ :=
    runContext_terminal_status emptyStore [Op.logParam "Model" (.str "Ridge")]
      emptyStore_WF
  refine ⟨?_, g4 (by decide)⟩
  rw [g3]
  decide

/-- C6: when an error propagates out of a run's body, the error the caller
sees is the body's error, the run is left FAILED, and all params and
metrics successfully logged before the failure are preserved in the run's
record (not rolled back). -/
theorem failed_run_preserves_logged_data (s : Store) (ops1 ops2 : List Op)
    (c : Nat) (s2 : Store) (hwf : s.WF)
    (h1 : (s.createRun).2.runOps s.nextId ops1 = (s2, none)) :
    (s.withRun (ops1 ++ Op.fail c :: ops2)).2.2 = some (.UserError c) ∧
    statusOf (s.withRun (ops1 ++ Op.fail c :: ops2)).2.1 s.nextId = some .FAILED ∧
    paramsOf (s.withRun (ops1 ++ Op.fail c :: ops2)).2.1 s.nextId =
      paramsOf s2 s.nextId ∧
    metricsOf (s.withRun (ops1 ++ Op.fail c :: ops2)).2.1 s.nextId =
      metricsOf s2 s.nextId := by
  have hbs : bodyState s (ops1 ++ Op.fail c :: ops2) = (s2, some (.UserError c)) := by
    unfold bodyState
    rw [runOps_append_of_ok h1]
    simp [Store.runOps, Store.execOp]
  obtain ⟨_, g2, g3, _, g5, g6, _, _, _, _, _⟩ :=
    withRun_shape s (ops1 ++ Op.fail c :: ops2) hwf
  rw [hbs] at g2 g3 g5 g6
  exact ⟨g2, by simpa using g3, g5, g6⟩

theorem failed_run_preserves_logged_data_witness :
    (emptyStore.withRun [Op.logParam "Model" (.str "Ridge"), Op.fail 7]).2.2 =
      some (.UserError 7) ∧
    statusOf (emptyStore.withRun
      [Op.logParam "Model" (.str "Ridge"), Op.fail 7]).2.1 0 = some .FAILED ∧
    paramsOf (emptyStore.withRun
      [Op.logParam "Model" (.str "Ridge"), Op.fail 7]).2.1 0 =
      some [("Model", "Ridge")] := by
  obtain ⟨w1, w2, w3, w4⟩ := failed_run_preserves_logged_data emptyStore
    [Op.logParam "Model" (.str "Ridge")] [] 7 demoLoggedStore emptyStore_WF
    (by decide)
  exact ⟨w1, w2, w3.trans (by decide)⟩

theorem assocFind_eq_none_iff {κ α : Type} [DecidableEq κ] (l : List (κ × α))
    (k : κ) : assocFind k l = none ↔ k ∉ l.map Prod.fst := by
  induction l with
  | nil => simp [assocFind]
  | cons p rest ih =>
    obtain ⟨k0, v0⟩ := p
    by_cases hk : k = k0 <;> simp [assocFind, hk, ih]

theorem workflow_cons (s : Store) (b : List Op) (rest : List (List Op)) :
    s.workflow (b :: rest) =
      (((s.withRun b).2.1.workflow rest).1,
       (s.withRun b).1 :: ((s.withRun b).2.1.workflow rest).2) := by
  simp [Store.workflow]

/-- A Run Context leaves every run of the store terminal when all runs were
terminal on entry: the new run takes its terminal transition on exit and no
other run's status changes. -/
theorem withRun_allTerminal (s : Store) (ops : List Op) (hwf : s.WF)
    (hterm : allTerminal s) : allTerminal (s.withRun ops).2.1 := by
  obtain ⟨g1, g2, g3, g4, g5, g6, g7, g8, g9, g10, g11⟩ := withRun_shape s ops hwf
  intro p hp
  have hfind : assocFind p.1 (s.withRun ops).2.1.runs = some p.2 :=
    mem_assocFind_of_nodup _ p g9.2 hp
  by_cases hx : p.1 = s.nextId
  · rw [hx] at hfind
    unfold statusOf at g3
    rw [hfind] at g3
    simp at g3
    rw [g3]
    cases (bodyState s ops).2 <;> simp [RunStatus.isTerminal]
  · have hst := g4 p.1 hx
    unfold statusOf at hst
    rw [hfind] at hst
    cases hf0 : assocFind p.1 s.runs with
    | none =>
      rw [hf0] at hst
      simp at hst
    | some r0 =>
      rw [hf0] at hst
      simp at hst
      rw [hst]
      exact hterm (p.1, r0) (assocFind_mem _ _ _ hf0)

/-- Shape of the sequential workflow: the created ids are consecutive fresh
ids, well-formedness and the all-terminal invariant are maintained, and the
counter advances by the number of iterations. -/
theorem workflow_shape (s : Store) (bodies : List (List Op)) (hwf : s.WF)
    (hterm : allTerminal s) :
    (s.workflow bodies).2 = List.range' s.nextId bodies.length ∧
    (s.workflow bodies).1.WF ∧
    allTerminal (s.workflow bodies).1 ∧
    (s.workflow bodies).1.nextId = s.nextId + bodies.length ∧
    (∀ rid ∈ (s.workflow bodies).2, assocFind rid s.runs = none) := by
  induction bodies generalizing s with
  | nil =>
    refine ⟨rfl, hwf, hterm, rfl, ?_⟩
    intro rid h
    simp [Store.workflow] at h
  | cons b rest ih =>
    obtain ⟨g1, g2, g3, g4, g5, g6, g7, g8, g9, g10, g11⟩ := withRun_shape s b hwf
    have hterm1 : allTerminal (s.withRun b).2.1 := withRun_allTerminal s b hwf hterm
    obtain ⟨w1, w2, w3, w4, w5⟩ := ih (s.withRun b).2.1 g9 hterm1
    rw [workflow_cons]
    dsimp only
    refine ⟨?_, w2, w3, ?_, ?_⟩
    · rw [List.length_cons, List.range'_succ, w1, g1, g7]
    · rw [w4, g7, List.length_cons]
      omega
    · intro rid hmem
      rcases List.mem_cons.mp hmem with hmem | hmem
      · rw [hmem, g1]
        exact createRun_fresh s hwf
      · have hnone := w5 rid hmem
        rw [assocFind_eq_none_iff] at hnone ⊢
        rw [g8] at hnone
        intro hin
        exact hnone (List.mem_append.mpr (Or.inl hin))

theorem emptyStore_allTerminal : allTerminal emptyStore := by
  intro p hp
  simp [emptyStore] at hp

/-- C10: in the reference workflow runs are strictly sequential: each
iteration creates exactly one run, the ids are consecutive and distinct
from each other and from every pre-existing run, every run ends terminal,
at every iteration boundary all runs so far are terminal (the previous run
reached a terminal state before the next is created), and at any point
inside an iteration's body every run other than the currently open one is
terminal — so at most one run is RUNNING at any time. -/
theorem workflow_sequential_runs (s : Store) (bodies : List (List Op))
    (hwf : s.WF) (hterm : allTerminal s) :
    (s.workflow bodies).2 = List.range' s.nextId bodies.length ∧
    (s.workflow bodies).2.Nodup ∧
    (∀ rid ∈ (s.workflow bodies).2, assocFind rid s.runs = none) ∧
    allTerminal (s.workflow bodies).1 ∧
    (∀ b1 b2, bodies = b1 ++ b2 → allTerminal (s.workflow b1).1) ∧
    (∀ b1 b rest2, bodies = b1 ++ b :: rest2 → ∀ ops1 ops2, b = ops1 ++ ops2 →
      ∀ x r, x ≠ (s.workflow b1).1.nextId →
        assocFind x ((((s.workflow b1).1.createRun).2).runOps
          (s.workflow b1).1.nextId ops1).1.runs = some r →
        r.status.isTerminal = true) := by
  obtain ⟨w1, w2, w3, w4, w5⟩ := workflow_shape s bodies hwf hterm
  refine ⟨w1, ?_, w5, w3, ?_, ?_⟩
  · rw [w1]
    exact List.nodup_range' _ _
  · intro b1 b2 hsplit
    exact (workflow_shape s b1 hwf hterm).2.2.1
  · intro b1 b rest2 hsplit ops1 ops2 hops x r hx hfind
    obtain ⟨v1, v2, v3, v4, v5⟩ := workflow_shape s b1 hwf hterm
    obtain ⟨_, _, hs1⟩ := runOps_shape ops1 ((s.workflow b1).1.createRun).2
      (s.workflow b1).1.nextId
    have hst : statusOf ((((s.workflow b1).1.createRun).2).runOps
        (s.workflow b1).1.nextId ops1).1 x = statusOf (s.workflow b1).1 x := by
      rw [hs1 x]
      exact statusOf_createRun_ne _ x hx
    unfold statusOf at hst
    rw [hfind] at hst
    cases hf0 : assocFind x (s.workflow b1).1.runs with
    | none =>
      rw [hf0] at hst
      simp at hst
    | some r0 =>
      rw [hf0] at hst
      simp at hst
      rw [hst]
      exact v3 (x, r0) (assocFind_mem _ _ _ hf0)

theorem workflow_sequential_runs_witness :
    (emptyStore.workflow demoBodies).2 = [0, 1] ∧
    (emptyStore.workflow demoBodies).2.Nodup ∧
    allTerminal (emptyStore.workflow demoBodies).1 := by
  obtain ⟨w1, w2, w3, w4, w5, w6⟩ := workflow_sequential_runs emptyStore demoBodies
    emptyStore_WF emptyStore_allTerminal
  exact ⟨w1.trans (by decide), w2, w4⟩

end MLTrack
